import Mathlib

/-
Verification of the schema-registry decode processor
(internal/impl/confluent/processor_schema_registry_decode.go):
the wire-envelope identifier codec (extractID), the decoder cache with
two-pass staleness eviction (clearExpired), the single-flight miss path
(getDecoder), shutdown (Close) and the per-message orchestrator (Process).

Bytes are modelled as Nat (values < 256 on real inputs), byte strings as
List Nat, Unix-second timestamps as Int, and the cache map[int] as an
association list keyed by the schema ID.
-/

/-! ## Identifier codec (extractID, lines 182-194) -/

/-- The big-endian 32-bit read `binary.BigEndian.Uint32` applied to four bytes. -/
def beUint32 (b1 b2 b3 b4 : Nat) : Nat :=
  b1 % 256 * 16777216 + b2 % 256 * 65536 + b3 % 256 * 256 + b4 % 256

/-- Outcome of `extractID`: success with ID and remaining bytes, the
"message is empty" format error, the "serialization format version %v not
supported" error, or the Go runtime panic raised by the slice expression
`b[1:5]` when the input is shorter than 5 bytes (for a byte slice whose
capacity equals its length). -/
inductive ExtractResult where
  | ok (id : Nat) (remaining : List Nat) : ExtractResult
  | formatError : ExtractResult
  | unsupportedVersion (v : Nat) : ExtractResult
  | sliceOutOfRange : ExtractResult
deriving DecidableEq, Repr

/-- Go function `extractID(b []byte) (id int, remaining []byte, err error)`:
empty check, then first-byte version check, then
`id = int(binary.BigEndian.Uint32(b[1:5])); remaining = b[5:]`. -/
def extractID (b : List Nat) : ExtractResult :=
  match b with
  | [] => .formatError
  | b0 :: rest =>
    if b0 ≠ 0 then .unsupportedVersion b0
    else
      match rest with
      | b1 :: b2 :: b3 :: b4 :: remaining => .ok (beUint32 b1 b2 b3 b4) remaining
      | _ => .sliceOutOfRange

/-- Synthetic encoder for the wire envelope: byte 0x00, then the 4-byte
big-endian encoding of the ID, then the payload. -/
def encodeEnvelope (id : Nat) (payload : List Nat) : List Nat :=
  0 :: id / 16777216 % 256 :: id / 65536 % 256 :: id / 256 % 256 :: id % 256 :: payload

/-! ## Decoder cache (schemas map, lines 71-82 and 225-277) -/

/-- Go struct `cachedSchemaDecoder`: last-used Unix timestamp plus the compiled
decoder, an opaque capability of type `α`. -/
structure CachedEntry (α : Type) where
  lastUsedUnixSeconds : Int
  decoder : α
deriving DecidableEq, Repr

/-- Map access `s.schemas[id]` in the association-list model of the map. -/
def lookupEntry {α : Type} (st : List (Nat × CachedEntry α)) (id : Nat) :
    Option (CachedEntry α) :=
  match st with
  | [] => none
  | (k, v) :: rest => if k = id then some v else lookupEntry rest id

/-- The hit path's `atomic.StoreInt64(&c.lastUsedUnixSeconds, time.Now().Unix())`. -/
def refreshEntry {α : Type} (st : List (Nat × CachedEntry α)) (id : Nat) (now : Int) :
    List (Nat × CachedEntry α) :=
  st.map fun kv =>
    if kv.1 = id then (kv.1, { kv.2 with lastUsedUnixSeconds := now }) else kv

/-- The registry response payload: a schema type tag and the schema text
(references and other fields are irrelevant to the cache layer). -/
structure SchemaInfo where
  schemaType : String
  schema : String
deriving DecidableEq, Repr

/-- Errors on the resolution path: registry fetch failure, decoder build
failure, or the "schema type %v not supported" error. -/
inductive ResolveErr where
  | registry (msg : String) : ResolveErr
  | build (msg : String) : ResolveErr
  | unsupportedType (t : String) : ResolveErr
deriving DecidableEq, Repr

/-- Tags a decoder-builder failure as a build error. -/
def liftBuild {α : Type} : Except String α → Except ResolveErr α
  | .ok d => .ok d
  | .error e => .error (.build e)

/-- The `switch resPayload.Type` dispatch (lines 256-264): "PROTOBUF" goes to
the Protobuf builder; "" and "AVRO" share the Avro builder path; any other
tag is unsupported. -/
def dispatchDecoder {α : Type} (buildAvro buildProto : SchemaInfo → Except String α)
    (p : SchemaInfo) : Except ResolveErr α :=
  if p.schemaType = "PROTOBUF" then liftBuild (buildProto p)
  else if p.schemaType = "" ∨ p.schemaType = "AVRO" then liftBuild (buildAvro p)
  else .error (.unsupportedType p.schemaType)

/-- The confirmed-miss body of getDecoder: `client.GetSchemaByID` followed by
the builder dispatch; a fetch failure propagates as a registry error. -/
def resolveOutcome {α : Type} (client : Nat → Except String SchemaInfo)
    (buildAvro buildProto : SchemaInfo → Except String α) (id : Nat) :
    Except ResolveErr α :=
  match client id with
  | .error e => .error (.registry e)
  | .ok p => dispatchDecoder buildAvro buildProto p

/-- Result of one getDecoder call: the returned decoder or error, the schemas
map after the call, and the number of registry fetches performed (0 or 1). -/
structure Resolved (α : Type) where
  result : Except ResolveErr α
  schemas : List (Nat × CachedEntry α)
  fetches : Nat

/-- Go method `getDecoder` (lines 225-277), sequentially: lookup with timestamp refresh
on hit; on miss, the re-check under requestMut (same state in this sequential
model), then fetch, dispatch, and — only on success — insertion of a fully
formed entry timestamped now. Errors leave the schemas map untouched. -/
def getDecoder {α : Type} (st : List (Nat × CachedEntry α)) (now : Int)
    (client : Nat → Except String SchemaInfo)
    (buildAvro buildProto : SchemaInfo → Except String α) (id : Nat) : Resolved α :=
  match lookupEntry st id with
  | some c => ⟨.ok c.decoder, refreshEntry st id now, 0⟩
  | none =>
    match lookupEntry st id with
    | some c => ⟨.ok c.decoder, refreshEntry st id now, 0⟩
    | none =>
      match resolveOutcome client buildAvro buildProto id with
      | .error e => ⟨.error e, st, 1⟩
      | .ok d => ⟨.ok d, (id, ⟨now, d⟩) :: st, 1⟩

/-! ## Two-pass staleness eviction (clearExpired, lines 201-223)

The cache is snapshotted as id/timestamp pairs. Between the read-locked scan
and the write-locked sweep other callers may refresh timestamps, so the two
passes see two snapshots, `cache1` and `cache2`, with the single `targetTime`
computed in the first pass. -/

/-- First pass (read lock): collect the IDs whose last-used timestamp is
strictly before `targetTime = now - schemaStaleAfter`. -/
def scanTargets (cache : List (Nat × Int)) (targetTime : Int) : List Nat :=
  (cache.filter fun kv => decide (kv.2 < targetTime)).map Prod.fst

/-- Second pass (write lock): delete each collected ID whose timestamp,
re-checked against the same `targetTime`, is still stale. -/
def sweepStale (cache : List (Nat × Int)) (targets : List Nat) (targetTime : Int) :
    List (Nat × Int) :=
  cache.filter fun kv => !(targets.contains kv.1 && decide (kv.2 < targetTime))

/-- Function `clearExpired`: scan on the first snapshot, sweep on the second. -/
def clearExpired (cache1 cache2 : List (Nat × Int)) (targetTime : Int) :
    List (Nat × Int) :=
  sweepStale cache2 (scanTargets cache1 targetTime) targetTime

/-! ## Shutdown (Close, lines 160-171) -/

/-- Method `Close`: the shutdown signal is raised (idempotent, no effect on the
cache; the signaller lives in internal/shutdown, outside this file's source,
and is modelled from the spec as an idempotent signal). Under the cache
write lock, a context whose error is already set is returned with the map
untouched; otherwise every entry is deleted and nil is returned. The context
is modelled as `Option String`: `some e` when cancelled or expired. -/
def closeDecoder {α : Type} (ctxErr : Option String)
    (st : List (Nat × CachedEntry α)) :
    Option String × List (Nat × CachedEntry α) :=
  match ctxErr with
  | some e => (some e, st)
  | none => (none, [])

/-! ## Per-message orchestrator (Process, lines 136-158) -/

/-- A compiled decoder as Process uses it: consumes the payload bytes set on
the message and either produces the decoded document's bytes or fails. -/
def SchemaDecoder : Type := List Nat → Except String (List Nat)

/-- Errors surfaced by Process, mirroring its early returns: the extraction
errors, a resolution error, or a payload decode error. sliceOutOfRange
stands for the propagated Go runtime panic. -/
inductive ProcErr where
  | emptyMessage : ProcErr
  | unsupportedVersion (v : Nat) : ProcErr
  | sliceOutOfRange : ProcErr
  | resolve (e : ResolveErr) : ProcErr
  | decode (msg : String) : ProcErr

/-- Outcome of one Process call: the returned batch-of-one (decoded bytes)
or error, the message's byte content when the call returns, the schemas map
afterwards, and the number of registry fetches performed. -/
structure ProcResult where
  output : Except ProcErr (List (List Nat))
  msgBytes : List Nat
  schemas : List (Nat × CachedEntry SchemaDecoder)
  fetches : Nat

/-- Method `Process`: extract the ID (propagating extraction errors with the message
untouched), resolve the decoder (propagating resolution errors with the
message untouched), then `msg.SetBytes(remaining)` and apply the decoder;
a decoder failure returns after the bytes were already replaced. -/
def process (st : List (Nat × CachedEntry SchemaDecoder)) (now : Int)
    (client : Nat → Except String SchemaInfo)
    (buildAvro buildProto : SchemaInfo → Except String SchemaDecoder)
    (b : List Nat) : ProcResult :=
  match extractID b with
  | .formatError => ⟨.error .emptyMessage, b, st, 0⟩
  | .unsupportedVersion v => ⟨.error (.unsupportedVersion v), b, st, 0⟩
  | .sliceOutOfRange => ⟨.error .sliceOutOfRange, b, st, 0⟩
  | .ok id remaining =>
    let r := getDecoder st now client buildAvro buildProto id
    match r.result with
    | .error e => ⟨.error (.resolve e), b, r.schemas, r.fetches⟩
    | .ok decoder =>
      match decoder remaining with
      | .error e => ⟨.error (.decode e), remaining, r.schemas, r.fetches⟩
      | .ok decoded => ⟨.ok [decoded], decoded, r.schemas, r.fetches⟩

/-! ## Concurrency: single-flight resolution (getDecoder, lines 225-277)

An interleaving model of many threads running getDecoder concurrently.
Each thread walks the code path: first lookup under the read lock, acquire
requestMut, re-check the lookup, fetch from the registry (two steps, so
that overlapping fetches would be observable), insert the entry and release.
Timestamps are irrelevant here, so the cache is modelled as id/decoder
pairs; fetchLog records every registry fetch issued, in order. -/

/-- Program counter of one thread inside getDecoder: before the first
lookup, waiting for requestMut, re-checking under the mutex, at the
confirmed miss, with the registry fetch in flight, holding the built
decoder before inserting, and returned with a decoder. -/
inductive TPC (α : Type) where
  | start : TPC α
  | acquire : TPC α
  | recheck : TPC α
  | fetch : TPC α
  | fetching : TPC α
  | insert (d : α) : TPC α
  | done (d : α) : TPC α
deriving DecidableEq, Repr

/-- Shared state of n threads: the schemas cache, the holder of requestMut,
every thread's program counter, and the ordered log of registry fetches. -/
structure GState (n : Nat) (α : Type) where
  cache : List (Nat × α)
  gate : Option (Fin n)
  tpc : Fin n → TPC α
  fetchLog : List Nat

/-- Cache lookup in the concurrency model. -/
def lookupDecoder {α : Type} (cache : List (Nat × α)) (i : Nat) : Option α :=
  match cache with
  | [] => none
  | (k, v) :: rest => if k = i then some v else lookupDecoder rest i

/-- Initial state: empty cache, free mutex, all threads about to call
getDecoder, no fetches issued. -/
def initState (n : Nat) (α : Type) : GState n α :=
  ⟨[], none, fun _ => .start, []⟩

/-- One interleaved step: some thread advances one atomic action of
getDecoder. The fetch-and-build closure is the deterministic f, and thread
t resolves the ID ids t. The mutex is held from lock until the hit
re-check returns or the insert completes, exactly as the defer in the
source releases requestMut only when getDecoder returns. -/
inductive Step {n : Nat} {α : Type} (f : Nat → α) (ids : Fin n → Nat) :
    GState n α → GState n α → Prop where
  | lookupHit (s : GState n α) (t : Fin n) (d : α) :
      s.tpc t = .start → lookupDecoder s.cache (ids t) = some d →
      Step f ids s { s with tpc := Function.update s.tpc t (.done d) }
  | lookupMiss (s : GState n α) (t : Fin n) :
      s.tpc t = .start → lookupDecoder s.cache (ids t) = none →
      Step f ids s { s with tpc := Function.update s.tpc t .acquire }
  | lock (s : GState n α) (t : Fin n) :
      s.tpc t = .acquire → s.gate = none →
      Step f ids s { s with gate := some t, tpc := Function.update s.tpc t .recheck }
  | recheckHit (s : GState n α) (t : Fin n) (d : α) :
      s.tpc t = .recheck → lookupDecoder s.cache (ids t) = some d →
      Step f ids s { s with gate := none, tpc := Function.update s.tpc t (.done d) }
  | recheckMiss (s : GState n α) (t : Fin n) :
      s.tpc t = .recheck → lookupDecoder s.cache (ids t) = none →
      Step f ids s { s with tpc := Function.update s.tpc t .fetch }
  | beginFetch (s : GState n α) (t : Fin n) :
      s.tpc t = .fetch →
      Step f ids s { s with tpc := Function.update s.tpc t .fetching,
                            fetchLog := s.fetchLog ++ [ids t] }
  | endFetch (s : GState n α) (t : Fin n) :
      s.tpc t = .fetching →
      Step f ids s { s with tpc := Function.update s.tpc t (.insert (f (ids t))) }
  | doInsert (s : GState n α) (t : Fin n) (d : α) :
      s.tpc t = .insert d →
      Step f ids s { s with cache := (ids t, d) :: s.cache, gate := none,
                            tpc := Function.update s.tpc t (.done d) }

/-- States reachable by interleaved execution from the initial state. -/
inductive Reach {n : Nat} {α : Type} (f : Nat → α) (ids : Fin n → Nat) :
    GState n α → Prop where
  | init : Reach f ids (initState n α)
  | step {s s' : GState n α} : Reach f ids s → Step f ids s s' → Reach f ids s'

/-- Program counters at which a thread holds requestMut. -/
def holdsGate {α : Type} : TPC α → Prop
  | .recheck => True
  | .fetch => True
  | .fetching => True
  | .insert _ => True
  | _ => False

/-- Inductive invariant of the interleaving model: the mutex has at most
the one holder recorded in gate; cache entries hold the built decoder for
their ID and were fetched; a thread past the confirmed miss sees its ID
absent; decoders about to be inserted and decoders returned are the built
ones; every fetched ID is cached or being handled by the mutex holder;
no ID is fetched twice; threads past beginFetch have logged their fetch. -/
structure GInv {n : Nat} {α : Type} (f : Nat → α) (ids : Fin n → Nat)
    (s : GState n α) : Prop where
  gateHeld : ∀ t, holdsGate (s.tpc t) → s.gate = some t
  cacheOK : ∀ i d, (i, d) ∈ s.cache → d = f i ∧ i ∈ s.fetchLog
  missOK : ∀ t, (s.tpc t = .fetch ∨ s.tpc t = .fetching ∨ (∃ d, s.tpc t = .insert d)) →
    lookupDecoder s.cache (ids t) = none
  insertOK : ∀ t d, s.tpc t = .insert d → d = f (ids t)
  doneOK : ∀ t d, s.tpc t = .done d →
    d = f (ids t) ∧ lookupDecoder s.cache (ids t) = some (f (ids t))
  logOK : ∀ i, i ∈ s.fetchLog → lookupDecoder s.cache i = some (f i) ∨
    ∃ t, ids t = i ∧ (s.tpc t = .fetching ∨ ∃ d, s.tpc t = .insert d)
  logCount : ∀ i, s.fetchLog.count i ≤ 1
  logMem : ∀ t, (s.tpc t = .fetching ∨ (∃ d, s.tpc t = .insert d)) →
    ids t ∈ s.fetchLog

/-- Concrete single-thread run used as the witness: thread 0 resolves ID 7
against the builder fun i => i + 100, walking miss, lock, re-check miss,
fetch, insert, done. -/
def sfW0 : GState 1 Nat := initState 1 Nat

/-- After the first lookup misses. -/
def sfW1 : GState 1 Nat := { sfW0 with tpc := Function.update sfW0.tpc 0 .acquire }

/-- After acquiring requestMut. -/
def sfW2 : GState 1 Nat :=
  { sfW1 with gate := some 0, tpc := Function.update sfW1.tpc 0 .recheck }

/-- After the re-check misses. -/
def sfW3 : GState 1 Nat := { sfW2 with tpc := Function.update sfW2.tpc 0 .fetch }

/-- After the registry fetch is issued. -/
def sfW4 : GState 1 Nat :=
  { sfW3 with tpc := Function.update sfW3.tpc 0 .fetching,
              fetchLog := sfW3.fetchLog ++ [7] }

/-- After the fetch returns the built decoder 107. -/
def sfW5 : GState 1 Nat := { sfW4 with tpc := Function.update sfW4.tpc 0 (.insert 107) }

/-- After inserting into the cache and releasing requestMut. -/
def sfW6 : GState 1 Nat :=
  { sfW5 with cache := (7, 107) :: sfW5.cache, gate := none,
              tpc := Function.update sfW5.tpc 0 (.done 107) }

/-! ## Theorems -/

/-- C1: on every input of length at least 5 whose first byte is 0, extractID
returns the big-endian 32-bit ID from bytes 1-4 and bytes 5..end unchanged;
composed with the synthetic envelope encoder it is the identity on
(id, payload) for every id below 2^32. -/
theorem extractID_roundtrip :
    (∀ b1 b2 b3 b4 rest, extractID (0 :: b1 :: b2 :: b3 :: b4 :: rest) =
      .ok (beUint32 b1 b2 b3 b4) rest)
    ∧ (∀ id payload, id < 4294967296 →
      extractID (encodeEnvelope id payload) = .ok id payload) := by
  constructor
  · intro b1 b2 b3 b4 rest
    simp [extractID]
  · intro id payload hid
    have hbe : beUint32 (id / 16777216 % 256) (id / 65536 % 256) (id / 256 % 256) (id % 256)
        = id := by
      unfold beUint32
      omega
    simp [encodeEnvelope, extractID, hbe]

/-- Witness for C1: id 305419896 = 0x12345678 with payload [9, 10]. -/
theorem extractID_roundtrip_witness :
    extractID (encodeEnvelope 305419896 [9, 10]) = .ok 305419896 [9, 10] :=
  extractID_roundtrip.2 305419896 [9, 10] (by decide)

/-- C4: extractID on the empty input yields the format error ("message is
empty"), and on any input whose first byte is non-zero yields the
unsupported-version error carrying that byte; neither produces an ID or
remainder. -/
theorem extractID_error_cases :
    extractID [] = .formatError
    ∧ (∀ b0 rest, b0 ≠ 0 → extractID (b0 :: rest) = .unsupportedVersion b0) := by
  refine ⟨rfl, ?_⟩
  intro b0 rest h
  simp [extractID, h]

/-- Witness for C4: first byte 3 is rejected as an unsupported version. -/
theorem extractID_error_cases_witness :
    extractID [3, 0, 0, 0, 1, 5] = .unsupportedVersion 3 :=
  extractID_error_cases.2 3 [0, 0, 0, 1, 5] (by decide)

/-- C9: extractID is total only away from short zero-prefixed inputs: for
every input of length 1 through 4 whose first byte is 0 the access b[1:5]
is out of range (modelled as the sliceOutOfRange outcome); the only error
returns are the empty-input and non-zero-first-byte checks, so every input
that is empty, starts with a non-zero byte, or has length at least 5 avoids
the panic; and under the precondition length ≥ 5 with first byte 0,
extractID always succeeds. -/
theorem extractID_partiality :
    (∀ b : List Nat, b.head? = some 0 → b.length < 5 → extractID b = .sliceOutOfRange)
    ∧ (∀ b : List Nat,
        (b = [] ∨ (∃ v rest, b = v :: rest ∧ v ≠ 0) ∨ 5 ≤ b.length) →
        extractID b ≠ .sliceOutOfRange)
    ∧ (∀ b : List Nat, b.head? = some 0 → 5 ≤ b.length →
        ∃ id rem, extractID b = .ok id rem ∧ rem = b.drop 5) := by
  refine ⟨?_, ?_, ?_⟩
  · intro b hhead hlen
    match b with
    | [] => simp at hhead
    | b0 :: rest =>
      simp only [List.head?] at hhead
      injection hhead with hb0
      subst hb0
      match rest with
      | [] => rfl
      | [_] => rfl
      | [_, _] => rfl
      | [_, _, _] => rfl
      | _ :: _ :: _ :: _ :: _ =>
        simp only [List.length_cons] at hlen
        omega
  · intro b hb
    rcases hb with rfl | ⟨v, rest, rfl, hv⟩ | hlen
    · simp [extractID]
    · simp [extractID, hv]
    · match b with
      | b0 :: b1 :: b2 :: b3 :: b4 :: rest =>
        by_cases h0 : b0 = 0
        · subst h0; simp [extractID]
        · simp [extractID, h0]
  · intro b hhead hlen
    match b with
    | b0 :: b1 :: b2 :: b3 :: b4 :: rest =>
      simp only [List.head?] at hhead
      injection hhead with hb0
      subst hb0
      exact ⟨beUint32 b1 b2 b3 b4, rest, by simp [extractID], rfl⟩

/-- Witness for C9: the 2-byte input [0, 1] panics in the slice access,
while [0, 0, 0, 0, 7] (length 5) succeeds. -/
theorem extractID_partiality_witness :
    extractID [0, 1] = .sliceOutOfRange
    ∧ ∃ id rem, extractID [0, 0, 0, 0, 7] = .ok id rem ∧ rem = [] :=
  ⟨extractID_partiality.1 [0, 1] rfl (by decide),
   extractID_partiality.2.2 [0, 0, 0, 0, 7] rfl (by decide)⟩

/-- Membership in the first-pass candidate list: an ID is collected exactly
when some entry for it in the scanned snapshot is stale. -/
theorem mem_scanTargets {cache : List (Nat × Int)} {tt : Int} {k : Nat} :
    k ∈ scanTargets cache tt ↔ ∃ t, (k, t) ∈ cache ∧ t < tt := by
  simp only [scanTargets, List.mem_map, List.mem_filter, decide_eq_true_eq]
  constructor
  · rintro ⟨⟨a, b⟩, ⟨hmem, hlt⟩, rfl⟩
    exact ⟨b, hmem, hlt⟩
  · rintro ⟨t, hmem, hlt⟩
    exact ⟨(k, t), ⟨hmem, hlt⟩, rfl⟩

/-- Membership after the write-locked sweep: an entry of the second snapshot
survives exactly when it is not both a collected target and still stale. -/
theorem mem_clearExpired {cache1 cache2 : List (Nat × Int)} {tt : Int}
    {k : Nat} {t2 : Int} (hmem : (k, t2) ∈ cache2) :
    ((k, t2) ∈ clearExpired cache1 cache2 tt) ↔
      ¬(k ∈ scanTargets cache1 tt ∧ t2 < tt) := by
  simp [clearExpired, sweepStale, List.mem_filter, hmem, List.elem_iff]
  tauto

/-- C2: clearExpired removes from the second-pass snapshot exactly the
entries whose re-checked timestamp is still before targetTime (given that
timestamps only move forward, so every stale entry of the second snapshot was
already collected in the first pass); an entry refreshed between the two
passes survives, and an entry stale at both passes is removed. -/
theorem clearExpired_exact (cache1 cache2 : List (Nat × Int)) (tt : Int)
    (hmono : ∀ k t2, (k, t2) ∈ cache2 → t2 < tt → k ∈ scanTargets cache1 tt) :
    ∀ k t2, (k, t2) ∈ cache2 →
      (((k, t2) ∈ clearExpired cache1 cache2 tt) ↔ tt ≤ t2)
      ∧ (tt ≤ t2 → (k, t2) ∈ clearExpired cache1 cache2 tt)
      ∧ ((∃ t1, (k, t1) ∈ cache1 ∧ t1 < tt) → t2 < tt →
          (k, t2) ∉ clearExpired cache1 cache2 tt) := by
  intro k t2 hmem
  have hkey := @mem_clearExpired cache1 cache2 tt k t2 hmem
  have hiff : ((k, t2) ∈ clearExpired cache1 cache2 tt) ↔ tt ≤ t2 := by
    rw [hkey]
    constructor
    · intro h
      by_contra hlt
      exact h ⟨hmono k t2 hmem (by omega), by omega⟩
    · intro hle h
      omega
  exact ⟨hiff, fun hle => hiff.mpr hle, fun hex hlt2 hin =>
    (hkey.mp hin) ⟨mem_scanTargets.mpr ⟨hex.choose, hex.choose_spec.1, hex.choose_spec.2⟩, hlt2⟩⟩

/-- Witness for C2: with threshold time 50, the entry for ID 1 refreshed to
timestamp 100 between the passes survives, while the entry for ID 2, stale
(timestamp 0) at both passes, is removed. -/
theorem clearExpired_exact_witness :
    (((1, (100 : Int)) ∈ clearExpired [(1, 0), (2, 0)] [(1, 100), (2, 0)] 50) ↔
      (50 : Int) ≤ 100)
    ∧ ((1, (100 : Int)) ∈ clearExpired [(1, 0), (2, 0)] [(1, 100), (2, 0)] 50)
    ∧ ((2, (0 : Int)) ∉ clearExpired [(1, 0), (2, 0)] [(1, 100), (2, 0)] 50) := by
  have hmono : ∀ k t2, ((k, t2) ∈ ([(1, 100), (2, 0)] : List (Nat × Int))) →
      t2 < 50 → k ∈ scanTargets [(1, 0), (2, 0)] 50 := by
    intro k t2 hmem hlt
    simp only [List.mem_cons, List.not_mem_nil, or_false, Prod.mk.injEq] at hmem
    rcases hmem with ⟨rfl, rfl⟩ | ⟨rfl, rfl⟩
    · omega
    · decide
  refine ⟨(clearExpired_exact _ _ _ hmono 1 100 (by decide)).1,
    (clearExpired_exact _ _ _ hmono 1 100 (by decide)).2.1 (by decide),
    (clearExpired_exact _ _ _ hmono 2 0 (by decide)).2.2 ⟨0, by decide, by decide⟩ (by decide)⟩

/-- C3: on a miss, when resolution fails (registry error, build error, or
unsupported schema type), getDecoder returns that error with the schemas map
exactly unchanged and no entry inserted for the ID, so a later call for the
same ID confirms a miss and attempts resolution again. -/
theorem getDecoder_no_negative_caching {α : Type} (st : List (Nat × CachedEntry α))
    (now : Int) (client : Nat → Except String SchemaInfo)
    (buildAvro buildProto : SchemaInfo → Except String α) (id : Nat) (e : ResolveErr)
    (hmiss : lookupEntry st id = none)
    (hfail : resolveOutcome client buildAvro buildProto id = .error e) :
    getDecoder st now client buildAvro buildProto id = ⟨.error e, st, 1⟩
    ∧ lookupEntry (getDecoder st now client buildAvro buildProto id).schemas id = none
    ∧ (∀ now2, getDecoder (getDecoder st now client buildAvro buildProto id).schemas
        now2 client buildAvro buildProto id = ⟨.error e, st, 1⟩) := by
  have h1 : getDecoder st now client buildAvro buildProto id = ⟨.error e, st, 1⟩ := by
    simp [getDecoder, hmiss, hfail]
  refine ⟨h1, ?_, ?_⟩
  · rw [h1]
    exact hmiss
  · intro now2
    rw [h1]
    simp [getDecoder, hmiss, hfail]

/-- Witness for C3: a failing registry fetch for ID 5 leaves the empty cache
empty and is not cached. -/
theorem getDecoder_no_negative_caching_witness :
    getDecoder ([] : List (Nat × CachedEntry Nat)) 0 (fun _ => .error "registry down")
      (fun _ => .ok 0) (fun _ => .ok 0) 5 =
      ⟨.error (.registry "registry down"), [], 1⟩ :=
  (getDecoder_no_negative_caching [] 0 (fun _ => .error "registry down")
    (fun _ => .ok 0) (fun _ => .ok 0) 5 (.registry "registry down") rfl rfl).1

/-- C5: on a confirmed miss the builder is dispatched by the registry
response's type tag: "" and "AVRO" share the Avro builder path, "PROTOBUF"
uses the Protobuf builder, and every other tag fails with the unsupported
schema type error while caching nothing. -/
theorem getDecoder_dispatch_by_type {α : Type} (st : List (Nat × CachedEntry α))
    (now : Int) (client : Nat → Except String SchemaInfo)
    (buildAvro buildProto : SchemaInfo → Except String α) (id : Nat) (p : SchemaInfo)
    (hmiss : lookupEntry st id = none) (hclient : client id = .ok p) :
    (p.schemaType = "" ∨ p.schemaType = "AVRO" →
      resolveOutcome client buildAvro buildProto id = liftBuild (buildAvro p))
    ∧ (p.schemaType = "PROTOBUF" →
      resolveOutcome client buildAvro buildProto id = liftBuild (buildProto p))
    ∧ (p.schemaType ≠ "" → p.schemaType ≠ "AVRO" → p.schemaType ≠ "PROTOBUF" →
      resolveOutcome client buildAvro buildProto id =
          .error (.unsupportedType p.schemaType)
        ∧ getDecoder st now client buildAvro buildProto id =
          ⟨.error (.unsupportedType p.schemaType), st, 1⟩) := by
  refine ⟨?_, ?_, ?_⟩
  · intro h
    have hne : p.schemaType ≠ "PROTOBUF" := by
      rcases h with h | h <;> simp [h]
    simp [resolveOutcome, hclient, dispatchDecoder, hne, h]
  · intro h
    simp [resolveOutcome, hclient, dispatchDecoder, h]
  · intro h1 h2 h3
    have hout : resolveOutcome client buildAvro buildProto id =
        .error (.unsupportedType p.schemaType) := by
      simp [resolveOutcome, hclient, dispatchDecoder, h1, h2, h3]
    exact ⟨hout, by simp [getDecoder, hmiss, hout]⟩

/-- Witness for C5: the unrecognized tag "JSON" is rejected and nothing is
inserted into the cache. -/
theorem getDecoder_dispatch_by_type_witness :
    getDecoder ([] : List (Nat × CachedEntry Nat)) 0 (fun _ => .ok ⟨"JSON", "s"⟩)
      (fun _ => .ok 1) (fun _ => .ok 2) 9 = ⟨.error (.unsupportedType "JSON"), [], 1⟩ :=
  ((getDecoder_dispatch_by_type [] 0 (fun _ => .ok ⟨"JSON", "s"⟩) (fun _ => .ok 1)
    (fun _ => .ok 2) 9 ⟨"JSON", "s"⟩ rfl rfl).2.2
    (by decide) (by decide) (by decide)).2

/-- C6: closing with a live context clears every entry (zero entries remain)
and returns no error; closing with an already-expired context skips the
clear, leaves the map unchanged, and returns the context's error; a second
close after a successful close again returns no error. -/
theorem closeDecoder_contract {α : Type} (st : List (Nat × CachedEntry α))
    (e : String) :
    closeDecoder none st = (none, ([] : List (Nat × CachedEntry α)))
    ∧ (closeDecoder none st).2.length = 0
    ∧ closeDecoder (some e) st = (some e, st)
    ∧ closeDecoder none (closeDecoder none st).2 =
        (none, ([] : List (Nat × CachedEntry α))) :=
  ⟨rfl, rfl, rfl, rfl⟩

/-- C7: for any message whose first byte is non-zero, Process fails with the
unsupported-version error carrying that byte, the message bytes and the
schemas map are untouched, and zero registry fetches occur — extraction runs
before resolution and its error propagates unchanged. -/
theorem process_unsupported_version_no_fetch
    (st : List (Nat × CachedEntry SchemaDecoder)) (now : Int)
    (client : Nat → Except String SchemaInfo)
    (buildAvro buildProto : SchemaInfo → Except String SchemaDecoder)
    (b0 : Nat) (rest : List Nat) (h : b0 ≠ 0) :
    process st now client buildAvro buildProto (b0 :: rest) =
      ⟨.error (.unsupportedVersion b0), b0 :: rest, st, 0⟩ := by
  simp [process, extractID, h]

/-- Witness for C7: first byte 0x01 is rejected with no registry fetch. -/
theorem process_unsupported_version_no_fetch_witness :
    process [] 0 (fun _ => .ok ⟨"AVRO", "s"⟩) (fun _ => .ok fun x => .ok x)
      (fun _ => .ok fun x => .ok x) [1, 0, 0, 0, 7, 42] =
      ⟨.error (.unsupportedVersion 1), [1, 0, 0, 0, 7, 42], [], 0⟩ :=
  process_unsupported_version_no_fetch [] 0 (fun _ => .ok ⟨"AVRO", "s"⟩)
    (fun _ => .ok fun x => .ok x) (fun _ => .ok fun x => .ok x) 1 [0, 0, 0, 7, 42]
    (by decide)

/-- C10: Process mutates the message only after extraction and resolution
both succeed: on an extraction failure or a getDecoder failure the returned
error leaves the message bytes unchanged, whereas when the resolved decoder
itself fails on the payload the message bytes have already been replaced by
the remainder of the envelope. -/
theorem process_mutation_order (st : List (Nat × CachedEntry SchemaDecoder))
    (now : Int) (client : Nat → Except String SchemaInfo)
    (buildAvro buildProto : SchemaInfo → Except String SchemaDecoder)
    (b rem : List Nat) (id : Nat) :
    ((∀ i r, extractID b ≠ .ok i r) →
      (process st now client buildAvro buildProto b).msgBytes = b
      ∧ ∃ e, (process st now client buildAvro buildProto b).output = .error e)
    ∧ (∀ e, extractID b = .ok id rem →
      (getDecoder st now client buildAvro buildProto id).result = .error e →
      (process st now client buildAvro buildProto b).msgBytes = b
      ∧ (process st now client buildAvro buildProto b).output = .error (.resolve e))
    ∧ (∀ d e, extractID b = .ok id rem →
      (getDecoder st now client buildAvro buildProto id).result = .ok d →
      d rem = .error e →
      (process st now client buildAvro buildProto b).msgBytes = rem
      ∧ (process st now client buildAvro buildProto b).output = .error (.decode e)) := by
  refine ⟨?_, ?_, ?_⟩
  · intro hfail
    cases hx : extractID b with
    | ok i r => exact absurd hx (hfail i r)
    | formatError =>
      exact ⟨by simp [process, hx], .emptyMessage, by simp [process, hx]⟩
    | unsupportedVersion v =>
      exact ⟨by simp [process, hx], .unsupportedVersion v, by simp [process, hx]⟩
    | sliceOutOfRange =>
      exact ⟨by simp [process, hx], .sliceOutOfRange, by simp [process, hx]⟩
  · intro e hx hres
    constructor <;> simp [process, hx, hres]
  · intro d e hx hres hd
    constructor <;> simp [process, hx, hres, hd]

/-- Witness for C10: a decoder that rejects its payload fails Process after
the message bytes were replaced by the remainder [9]. -/
theorem process_mutation_order_witness :
    (process [] 0 (fun _ => .ok ⟨"AVRO", "s"⟩) (fun _ => .ok fun _ => .error "bad payload")
      (fun _ => .ok fun x => .ok x) [0, 0, 0, 0, 7, 9]).msgBytes = [9]
    ∧ (process [] 0 (fun _ => .ok ⟨"AVRO", "s"⟩)
        (fun _ => .ok fun _ => .error "bad payload")
        (fun _ => .ok fun x => .ok x) [0, 0, 0, 0, 7, 9]).output =
      .error (.decode "bad payload") :=
  (process_mutation_order [] 0 (fun _ => .ok ⟨"AVRO", "s"⟩)
    (fun _ => .ok fun _ => .error "bad payload") (fun _ => .ok fun x => .ok x)
    [0, 0, 0, 0, 7, 9] [9] 7).2.2 (fun _ => .error "bad payload") "bad payload"
    rfl rfl rfl

/-- Unfolding equation for lookupDecoder on a cons cell. -/
theorem lookupDecoder_cons {α : Type} (k : Nat) (v : α) (rest : List (Nat × α))
    (i : Nat) :
    lookupDecoder ((k, v) :: rest) i = if k = i then some v else lookupDecoder rest i :=
  rfl

/-- A successful lookup returns an element of the cache. -/
theorem lookupDecoder_mem {α : Type} {cache : List (Nat × α)} {i : Nat} {d : α}
    (h : lookupDecoder cache i = some d) : (i, d) ∈ cache := by
  induction cache with
  | nil => simp [lookupDecoder] at h
  | cons kv rest ih =>
    obtain ⟨k, v⟩ := kv
    rw [lookupDecoder_cons] at h
    by_cases hk : k = i
    · rw [if_pos hk] at h
      subst hk
      rw [List.mem_cons]
      left
      rw [Option.some.inj h]
    · rw [if_neg hk] at h
      exact List.mem_cons_of_mem _ (ih h)

/-- Lookup finds a freshly prepended entry. -/
theorem lookupDecoder_cons_self {α : Type} {cache : List (Nat × α)} {i : Nat} {d : α} :
    lookupDecoder ((i, d) :: cache) i = some d := by
  rw [lookupDecoder_cons, if_pos rfl]

/-- Prepending an entry for another ID does not change a lookup. -/
theorem lookupDecoder_cons_ne {α : Type} {cache : List (Nat × α)} {i j : Nat} {d : α}
    (h : j ≠ i) : lookupDecoder ((j, d) :: cache) i = lookupDecoder cache i := by
  rw [lookupDecoder_cons, if_neg h]

/-- The invariant holds initially. -/
theorem ginv_init {n : Nat} {α : Type} (f : Nat → α) (ids : Fin n → Nat) :
    GInv f ids (initState n α) := by
  refine ⟨?_, ?_, ?_, ?_, ?_, ?_, ?_, ?_⟩ <;> intro t <;>
    simp [initState, holdsGate, lookupDecoder]

/-- The invariant is preserved by every interleaved step. -/
theorem ginv_step {n : Nat} {α : Type} {f : Nat → α} {ids : Fin n → Nat}
    {s s' : GState n α} (hinv : GInv f ids s) (hstep : Step f ids s s') :
    GInv f ids s' := by
  obtain ⟨hgate, hcache, hmiss, hins, hdone, hlog, hcount, hlogmem⟩ := hinv
  cases hstep with
  | lookupHit t d htpc hlook =>
    refine ⟨?_, ?_, ?_, ?_, ?_, ?_, ?_, ?_⟩ <;> dsimp only
    · intro u hu
      by_cases hut : t = u
      · subst hut; simp [Function.update_same, holdsGate] at hu
      · rw [Function.update_noteq (Ne.symm hut)] at hu
        exact hgate u hu
    · exact hcache
    · intro u hu
      by_cases hut : t = u
      · subst hut; simp [Function.update_same] at hu
      · rw [Function.update_noteq (Ne.symm hut)] at hu
        exact hmiss u hu
    · intro u e hu
      by_cases hut : t = u
      · subst hut; simp [Function.update_same] at hu
      · rw [Function.update_noteq (Ne.symm hut)] at hu
        exact hins u e hu
    · intro u e hu
      by_cases hut : t = u
      · subst hut
        simp only [Function.update_same, TPC.done.injEq] at hu
        subst hu
        have hd := (hcache _ _ (lookupDecoder_mem hlook)).1
        subst hd
        exact ⟨rfl, hlook⟩
      · rw [Function.update_noteq (Ne.symm hut)] at hu
        exact hdone u e hu
    · intro i hi
      rcases hlog i hi with h | ⟨u, hu, hcase⟩
      · exact Or.inl h
      · refine Or.inr ⟨u, hu, ?_⟩
        have hut : u ≠ t := by
          rintro rfl
          rcases hcase with h | ⟨e, h⟩ <;> rw [htpc] at h <;> exact absurd h (by simp)
        rw [Function.update_noteq hut]
        exact hcase
    · exact hcount
    · intro u hu
      by_cases hut : t = u
      · subst hut; simp [Function.update_same] at hu
      · rw [Function.update_noteq (Ne.symm hut)] at hu
        exact hlogmem u hu
  | lookupMiss t htpc hlook =>
    refine ⟨?_, ?_, ?_, ?_, ?_, ?_, ?_, ?_⟩ <;> dsimp only
    · intro u hu
      by_cases hut : t = u
      · subst hut; simp [Function.update_same, holdsGate] at hu
      · rw [Function.update_noteq (Ne.symm hut)] at hu
        exact hgate u hu
    · exact hcache
    · intro u hu
      by_cases hut : t = u
      · subst hut; simp [Function.update_same] at hu
      · rw [Function.update_noteq (Ne.symm hut)] at hu
        exact hmiss u hu
    · intro u e hu
      by_cases hut : t = u
      · subst hut; simp [Function.update_same] at hu
      · rw [Function.update_noteq (Ne.symm hut)] at hu
        exact hins u e hu
    · intro u e hu
      by_cases hut : t = u
      · subst hut; simp [Function.update_same] at hu
      · rw [Function.update_noteq (Ne.symm hut)] at hu
        exact hdone u e hu
    · intro i hi
      rcases hlog i hi with h | ⟨u, hu, hcase⟩
      · exact Or.inl h
      · refine Or.inr ⟨u, hu, ?_⟩
        have hut : u ≠ t := by
          rintro rfl
          rcases hcase with h | ⟨e, h⟩ <;> rw [htpc] at h <;> exact absurd h (by simp)
        rw [Function.update_noteq hut]
        exact hcase
    · exact hcount
    · intro u hu
      by_cases hut : t = u
      · subst hut; simp [Function.update_same] at hu
      · rw [Function.update_noteq (Ne.symm hut)] at hu
        exact hlogmem u hu
  | lock t htpc hg =>
    refine ⟨?_, ?_, ?_, ?_, ?_, ?_, ?_, ?_⟩ <;> dsimp only
    · intro u hu
      by_cases hut : t = u
      · subst hut; rfl
      · rw [Function.update_noteq (Ne.symm hut)] at hu
        rw [hgate u hu] at hg
        exact absurd hg (by simp)
    · exact hcache
    · intro u hu
      by_cases hut : t = u
      · subst hut; simp [Function.update_same] at hu
      · rw [Function.update_noteq (Ne.symm hut)] at hu
        exact hmiss u hu
    · intro u e hu
      by_cases hut : t = u
      · subst hut; simp [Function.update_same] at hu
      · rw [Function.update_noteq (Ne.symm hut)] at hu
        exact hins u e hu
    · intro u e hu
      by_cases hut : t = u
      · subst hut; simp [Function.update_same] at hu
      · rw [Function.update_noteq (Ne.symm hut)] at hu
        exact hdone u e hu
    · intro i hi
      rcases hlog i hi with h | ⟨u, hu, hcase⟩
      · exact Or.inl h
      · refine Or.inr ⟨u, hu, ?_⟩
        have hut : u ≠ t := by
          rintro rfl
          rcases hcase with h | ⟨e, h⟩ <;> rw [htpc] at h <;> exact absurd h (by simp)
        rw [Function.update_noteq hut]
        exact hcase
    · exact hcount
    · intro u hu
      by_cases hut : t = u
      · subst hut; simp [Function.update_same] at hu
      · rw [Function.update_noteq (Ne.symm hut)] at hu
        exact hlogmem u hu
  | recheckHit t d htpc hlook =>
    refine ⟨?_, ?_, ?_, ?_, ?_, ?_, ?_, ?_⟩ <;> dsimp only
    · intro u hu
      by_cases hut : t = u
      · subst hut; simp [Function.update_same, holdsGate] at hu
      · rw [Function.update_noteq (Ne.symm hut)] at hu
        have h1 := hgate u hu
        have h2 := hgate t (by rw [htpc]; trivial)
        rw [h1] at h2
        exact absurd (Option.some.inj h2).symm hut
    · exact hcache
    · intro u hu
      by_cases hut : t = u
      · subst hut; simp [Function.update_same] at hu
      · rw [Function.update_noteq (Ne.symm hut)] at hu
        exact hmiss u hu
    · intro u e hu
      by_cases hut : t = u
      · subst hut; simp [Function.update_same] at hu
      · rw [Function.update_noteq (Ne.symm hut)] at hu
        exact hins u e hu
    · intro u e hu
      by_cases hut : t = u
      · subst hut
        simp only [Function.update_same, TPC.done.injEq] at hu
        subst hu
        have hd := (hcache _ _ (lookupDecoder_mem hlook)).1
        subst hd
        exact ⟨rfl, hlook⟩
      · rw [Function.update_noteq (Ne.symm hut)] at hu
        exact hdone u e hu
    · intro i hi
      rcases hlog i hi with h | ⟨u, hu, hcase⟩
      · exact Or.inl h
      · refine Or.inr ⟨u, hu, ?_⟩
        have hut : u ≠ t := by
          rintro rfl
          rcases hcase with h | ⟨e, h⟩ <;> rw [htpc] at h <;> exact absurd h (by simp)
        rw [Function.update_noteq hut]
        exact hcase
    · exact hcount
    · intro u hu
      by_cases hut : t = u
      · subst hut; simp [Function.update_same] at hu
      · rw [Function.update_noteq (Ne.symm hut)] at hu
        exact hlogmem u hu
  | recheckMiss t htpc hlook =>
    refine ⟨?_, ?_, ?_, ?_, ?_, ?_, ?_, ?_⟩ <;> dsimp only
    · intro u hu
      by_cases hut : t = u
      · subst hut
        exact hgate t (by rw [htpc]; trivial)
      · rw [Function.update_noteq (Ne.symm hut)] at hu
        exact hgate u hu
    · exact hcache
    · intro u hu
      by_cases hut : t = u
      · subst hut; exact hlook
      · rw [Function.update_noteq (Ne.symm hut)] at hu
        exact hmiss u hu
    · intro u e hu
      by_cases hut : t = u
      · subst hut; simp [Function.update_same] at hu
      · rw [Function.update_noteq (Ne.symm hut)] at hu
        exact hins u e hu
    · intro u e hu
      by_cases hut : t = u
      · subst hut; simp [Function.update_same] at hu
      · rw [Function.update_noteq (Ne.symm hut)] at hu
        exact hdone u e hu
    · intro i hi
      rcases hlog i hi with h | ⟨u, hu, hcase⟩
      · exact Or.inl h
      · refine Or.inr ⟨u, hu, ?_⟩
        have hut : u ≠ t := by
          rintro rfl
          rcases hcase with h | ⟨e, h⟩ <;> rw [htpc] at h <;> exact absurd h (by simp)
        rw [Function.update_noteq hut]
        exact hcase
    · exact hcount
    · intro u hu
      by_cases hut : t = u
      · subst hut; simp [Function.update_same] at hu
      · rw [Function.update_noteq (Ne.symm hut)] at hu
        exact hlogmem u hu
  | beginFetch t htpc =>
    have hnotlog : ids t ∉ s.fetchLog := by
      intro hmem
      rcases hlog _ hmem with h | ⟨u, hu, hcase⟩
      · rw [hmiss t (Or.inl htpc)] at h
        exact absurd h (by simp)
      · have h1 := hgate u (by rcases hcase with h | ⟨e, h⟩ <;> rw [h] <;> trivial)
        have h2 := hgate t (by rw [htpc]; trivial)
        rw [h1] at h2
        have h3 := Option.some.inj h2
        subst h3
        rcases hcase with h | ⟨e, h⟩ <;> rw [htpc] at h <;> exact absurd h (by simp)
    refine ⟨?_, ?_, ?_, ?_, ?_, ?_, ?_, ?_⟩ <;> dsimp only
    · intro u hu
      by_cases hut : t = u
      · subst hut
        exact hgate t (by rw [htpc]; trivial)
      · rw [Function.update_noteq (Ne.symm hut)] at hu
        exact hgate u hu
    · intro i e hmem
      exact ⟨(hcache i e hmem).1, List.mem_append_left _ (hcache i e hmem).2⟩
    · intro u hu
      by_cases hut : t = u
      · subst hut; exact hmiss t (Or.inl htpc)
      · rw [Function.update_noteq (Ne.symm hut)] at hu
        exact hmiss u hu
    · intro u e hu
      by_cases hut : t = u
      · subst hut; simp [Function.update_same] at hu
      · rw [Function.update_noteq (Ne.symm hut)] at hu
        exact hins u e hu
    · intro u e hu
      by_cases hut : t = u
      · subst hut; simp [Function.update_same] at hu
      · rw [Function.update_noteq (Ne.symm hut)] at hu
        exact hdone u e hu
    · intro i hi
      rcases List.mem_append.mp hi with hi | hi
      · rcases hlog i hi with h | ⟨u, hu, hcase⟩
        · exact Or.inl h
        · refine Or.inr ⟨u, hu, ?_⟩
          have hut : u ≠ t := by
            rintro rfl
            rcases hcase with h | ⟨e, h⟩ <;> rw [htpc] at h <;> exact absurd h (by simp)
          rw [Function.update_noteq hut]
          exact hcase
      · have h3 : i = ids t := by simpa using hi
        subst h3
        exact Or.inr ⟨t, rfl, Or.inl (by simp [Function.update_same])⟩
    · intro i
      rw [List.count_append]
      by_cases hit : i = ids t
      · have h0 : s.fetchLog.count (ids t) = 0 := List.count_eq_zero.mpr hnotlog
        have h1 : List.count (ids t) [ids t] = 1 := by simp
        rw [hit]
        omega
      · have h0 : List.count i [ids t] = 0 := List.count_eq_zero.mpr (by simp [hit])
        have h1 := hcount i
        omega
    · intro u hu
      by_cases hut : t = u
      · subst hut
        exact List.mem_append_right _ (by simp)
      · rw [Function.update_noteq (Ne.symm hut)] at hu
        exact List.mem_append_left _ (hlogmem u hu)
  | endFetch t htpc =>
    refine ⟨?_, ?_, ?_, ?_, ?_, ?_, ?_, ?_⟩ <;> dsimp only
    · intro u hu
      by_cases hut : t = u
      · subst hut
        exact hgate t (by rw [htpc]; trivial)
      · rw [Function.update_noteq (Ne.symm hut)] at hu
        exact hgate u hu
    · exact hcache
    · intro u hu
      by_cases hut : t = u
      · subst hut; exact hmiss t (Or.inr (Or.inl htpc))
      · rw [Function.update_noteq (Ne.symm hut)] at hu
        exact hmiss u hu
    · intro u e hu
      by_cases hut : t = u
      · subst hut
        simp only [Function.update_same, TPC.insert.injEq] at hu
        exact hu.symm
      · rw [Function.update_noteq (Ne.symm hut)] at hu
        exact hins u e hu
    · intro u e hu
      by_cases hut : t = u
      · subst hut; simp [Function.update_same] at hu
      · rw [Function.update_noteq (Ne.symm hut)] at hu
        exact hdone u e hu
    · intro i hi
      rcases hlog i hi with h | ⟨u, hu, hcase⟩
      · exact Or.inl h
      · by_cases hut : t = u
        · subst hut
          exact Or.inr ⟨t, hu, Or.inr ⟨f (ids t), by simp [Function.update_same]⟩⟩
        · refine Or.inr ⟨u, hu, ?_⟩
          rw [Function.update_noteq (Ne.symm hut)]
          exact hcase
    · exact hcount
    · intro u hu
      by_cases hut : t = u
      · subst hut
        exact hlogmem t (Or.inl htpc)
      · rw [Function.update_noteq (Ne.symm hut)] at hu
        exact hlogmem u hu
  | doInsert t d htpc =>
    have hd : d = f (ids t) := hins t d htpc
    have hgt : s.gate = some t := hgate t (by rw [htpc]; trivial)
    refine ⟨?_, ?_, ?_, ?_, ?_, ?_, ?_, ?_⟩ <;> dsimp only
    · intro u hu
      by_cases hut : t = u
      · subst hut; simp [Function.update_same, holdsGate] at hu
      · rw [Function.update_noteq (Ne.symm hut)] at hu
        have h1 := hgate u hu
        rw [h1] at hgt
        exact absurd (Option.some.inj hgt).symm hut
    · intro i e hmem
      rcases List.mem_cons.mp hmem with h | h
      · have h1 : i = ids t ∧ e = d := by simpa using h
        obtain ⟨rfl, rfl⟩ := h1
        exact ⟨hd, hlogmem t (Or.inr ⟨e, htpc⟩)⟩
      · exact hcache i e h
    · intro u hu
      by_cases hut : t = u
      · subst hut; simp [Function.update_same] at hu
      · rw [Function.update_noteq (Ne.symm hut)] at hu
        have h1 := hgate u (by rcases hu with h | h | ⟨e, h⟩ <;> rw [h] <;> trivial)
        rw [h1] at hgt
        exact absurd (Option.some.inj hgt).symm hut
    · intro u e hu
      by_cases hut : t = u
      · subst hut; simp [Function.update_same] at hu
      · rw [Function.update_noteq (Ne.symm hut)] at hu
        exact hins u e hu
    · intro u e hu
      by_cases hut : t = u
      · subst hut
        simp only [Function.update_same, TPC.done.injEq] at hu
        subst hu
        refine ⟨hd, ?_⟩
        rw [hd]
        exact lookupDecoder_cons_self
      · rw [Function.update_noteq (Ne.symm hut)] at hu
        obtain ⟨h1, h2⟩ := hdone u e hu
        refine ⟨h1, ?_⟩
        by_cases hii : ids t = ids u
        · rw [hii] at hd
          rw [hii, hd]
          exact lookupDecoder_cons_self
        · rw [lookupDecoder_cons_ne hii]
          exact h2
    · intro i hi
      by_cases hii : ids t = i
      · subst hii
        left
        rw [hd]
        exact lookupDecoder_cons_self
      · rcases hlog i hi with h | ⟨u, hu, hcase⟩
        · left
          rw [lookupDecoder_cons_ne hii]
          exact h
        · by_cases hut : t = u
          · subst hut
            exact absurd hu hii
          · refine Or.inr ⟨u, hu, ?_⟩
            rw [Function.update_noteq (Ne.symm hut)]
            exact hcase
    · exact hcount
    · intro u hu
      by_cases hut : t = u
      · subst hut; simp [Function.update_same] at hu
      · rw [Function.update_noteq (Ne.symm hut)] at hu
        exact hlogmem u hu

/-- Every reachable state satisfies the invariant. -/
theorem reach_ginv {n : Nat} {α : Type} {f : Nat → α} {ids : Fin n → Nat}
    {s : GState n α} (h : Reach f ids s) : GInv f ids s := by
  induction h with
  | init => exact ginv_init f ids
  | step _ hstep ih => exact ginv_step ih hstep

/-- C8: under concurrent getDecoder calls, in every reachable state at most
one thread has a registry fetch in flight (the process-wide requestMut
serializes fetches); no ID is ever fetched twice; every finished caller
holds the decoder built for its ID; and in a completed run every requested
previously-unseen ID was fetched exactly once, so all callers of one ID got
the one decoder built by the single fetch. -/
theorem getDecoder_single_flight {n : Nat} {α : Type} (f : Nat → α) (ids : Fin n → Nat)
    (s : GState n α) (h : Reach f ids s) :
    (∀ t u, s.tpc t = .fetching → s.tpc u = .fetching → t = u)
    ∧ (∀ i, s.fetchLog.count i ≤ 1)
    ∧ (∀ t d, s.tpc t = .done d → d = f (ids t))
    ∧ ((∀ t, ∃ d, s.tpc t = .done d) → ∀ t, s.fetchLog.count (ids t) = 1) := by
  obtain ⟨hgate, hcache, hmiss, hins, hdone, hlog, hcount, hlogmem⟩ := reach_ginv h
  refine ⟨?_, hcount, ?_, ?_⟩
  · intro t u ht hu
    have h1 := hgate t (by rw [ht]; trivial)
    have h2 := hgate u (by rw [hu]; trivial)
    rw [h1] at h2
    exact Option.some.inj h2
  · intro t d ht
    exact (hdone t d ht).1
  · intro hall t
    obtain ⟨d, hdt⟩ := hall t
    have hlk := (hdone t d hdt).2
    have hmem := (hcache _ _ (lookupDecoder_mem hlk)).2
    have hne : s.fetchLog.count (ids t) ≠ 0 := fun h0 => (List.count_eq_zero.mp h0) hmem
    have hle := hcount (ids t)
    omega

/-- The witness run is reachable: each constructor application is one
getDecoder action of thread 0. -/
theorem sfReach : Reach (fun i => i + 100) (fun _ => (7 : Nat)) sfW6 :=
  Reach.step
    (Reach.step
      (Reach.step
        (Reach.step
          (Reach.step
            (Reach.step Reach.init (Step.lookupMiss sfW0 0 rfl rfl))
            (Step.lock sfW1 0 (by decide) rfl))
          (Step.recheckMiss sfW2 0 (by decide) rfl))
        (Step.beginFetch sfW3 0 (by decide)))
      (Step.endFetch sfW4 0 (by decide)))
    (Step.doInsert sfW5 0 107 (by decide))

/-- Witness for C8: in the completed one-thread run, ID 7 was fetched
exactly once and the caller ended with the built decoder 107. -/
theorem getDecoder_single_flight_witness :
    sfW6.fetchLog.count 7 = 1 ∧ sfW6.tpc 0 = TPC.done 107 := by
  have h := getDecoder_single_flight (fun i => i + 100) (fun _ => (7 : Nat)) sfW6 sfReach
  refine ⟨h.2.2.2 ?_ 0, by decide⟩
  intro t
  refine ⟨107, ?_⟩
  have ht : t = 0 := Fin.ext (by omega)
  subst ht
  decide
